import Mathlib

/-!
Shallow embedding of the `brief-cases` sum-type library (src/index.js).

The library exports a single factory `define(...variants)` that returns a
`SumType` object with one constructor per variant name.  Each constructor
builds a `Variant` object holding `_name` (the tag) and `_args` (the payload).
`Variant.prototype.cases` dispatches on the tag:

  if (opts[this._name]) return opts[this._name](...this._args);
  else if (opts._) return opts._();
  else throw new Error(`cases: missing case for ...`);

Shared behavior is attached by assignment onto the definition's prototype
(`SumType.prototype`), from which every variant value inherits through
`Variant.prototype = Object.create(SumType.prototype)`.

The embedding below models payload values by an abstract type `α`, handler
results by `β`, and attached shared behaviors by `γ`.  Object identity and
per-definition prototypes are modelled by a `World` carrying fresh-id
counters and a map from definition ids to extension surfaces.
-/

namespace BriefCases

/-- A value stored under a key of a `cases` handler object.  The spec's input
contract makes handler values functions; the implementation only tests the
property for truthiness, so a key may also be bound to a falsy value
(`false`, `0`, `null`, `undefined`, `""`), modelled by `falsy`.  A function is
always truthy in JS. -/
inductive Entry (α β : Type) where
  | func : (List α → β) → Entry α β
  | falsy : Entry α β

/-- A handler object passed to `cases`: property lookup on a JS object,
returning the bound value when the key is present. -/
def HMap (α β : Type) : Type := String → Option (Entry α β)

/-- Truthiness of `opts[k]` as tested by `cases`: present and a function. -/
def entryTruthy : Option (Entry α β) → Bool
  | some (Entry.func _) => true
  | _ => false

/-- The message of the error thrown by `cases` when no case applies
(`cases: missing case for "tag"`). -/
def missingCaseMsg (tag : String) : String :=
  "cases: missing case for \"" ++ tag ++ "\""

/-- A variant value: `new Variant(name, args)` stores the tag in `_name` and
the payload in `_args`.  `objId` models JS object identity (each `new`
allocates a fresh object); `defId` identifies the owning definition, i.e.
which `SumType.prototype` the value inherits from. -/
structure Variant (α : Type) where
  objId : Nat
  defId : Nat
  _name : String
  _args : List α
deriving DecidableEq

/-- `Variant.prototype.cases`: if `opts[this._name]` is truthy, call it with
the payload spread as arguments; else if `opts._` is truthy, call it with no
arguments; else throw the missing-case error. -/
def Variant.cases (x : Variant α) (opts : HMap α β) : Except String β :=
  match opts x._name with
  | some (Entry.func f) => Except.ok (f x._args)
  | _ =>
    match opts "_" with
    | some (Entry.func g) => Except.ok (g [])
    | _ => Except.error (missingCaseMsg x._name)

/-- The bindings installed by `variants.forEach(name => { SumType[name] = ... })`,
processed left to right starting at occurrence index `i`: each iteration
overwrites the binding for `name` with (the constructor arising from) the
current occurrence, recorded by its index. -/
def bindFrom (i : Nat) : List String → (String → Option Nat) → (String → Option Nat)
  | [], m => m
  | n :: rest, m => bindFrom (i + 1) rest (fun k => if k = n then some i else m k)

/-- The constructor table of `define(...variants)`: for each variant name the
index of the occurrence whose assignment won (the last one). -/
def bindVariants (variants : List String) : String → Option Nat :=
  bindFrom 0 variants (fun _ => none)

/-- The definition object returned by `define`: its identity (owning the
extension surface `SumType.prototype`) and its constructor table. -/
structure DefnRef where
  id : Nat
  ctors : String → Option Nat

/-- The mutable JS heap fragment the library touches: fresh-id counters for
definitions and variant objects, and each definition's extension surface
(the contents of its `SumType.prototype`). -/
structure World (γ : Type) where
  nextDef : Nat
  nextObj : Nat
  surfaces : Nat → String → Option γ

/-- `define(...variants)`: allocates a fresh definition with an empty
extension surface and one constructor per variant name.  Never fails. -/
def defineOp (w : World γ) (variants : List String) : World γ × DefnRef :=
  ({ w with
      nextDef := w.nextDef + 1,
      surfaces := fun i => if i = w.nextDef then fun _ => none else w.surfaces i },
   { id := w.nextDef, ctors := bindVariants variants })

/-- The body of a variant constructor, `(...args) => new Variant(name, args)`:
allocates a fresh object tagged `name` with payload `args`, owned by `d`. -/
def construct (w : World γ) (d : DefnRef) (name : String) (args : List α) :
    World γ × Variant α :=
  ({ w with nextObj := w.nextObj + 1 },
   { objId := w.nextObj, defId := d.id, _name := name, _args := args })

/-- Invoking `Definition.name(...args)`: defined (and always succeeding)
exactly when `define` bound a constructor under `name`. -/
def callCtor (w : World γ) (d : DefnRef) (name : String) (args : List α) :
    Option (World γ × Variant α) :=
  match d.ctors name with
  | some _ => some (construct w d name args)
  | none => none

/-- Attaching shared behavior: `Definition.prototype[n] = b`.  Mutates only
the extension surface of `d`. -/
def attachOp (w : World γ) (d : DefnRef) (n : String) (b : γ) : World γ :=
  { w with
      surfaces := fun i =>
        if i = d.id then (fun k => if k = n then some b else w.surfaces i k)
        else w.surfaces i }

/-- What property access on a variant value resolves to, walking the JS
prototype chain: own properties (`_name`, `_args`), then `Variant.prototype`
(`cases`), then the definition's `SumType.prototype` (shared behavior). -/
inductive Member (α γ : Type) where
  | nameProp : String → Member α γ
  | argsProp : List α → Member α γ
  | casesMethod : Member α γ
  | shared : γ → Member α γ
deriving DecidableEq

/-- Property lookup `x[n]` on a variant value: own properties shadow
`Variant.prototype.cases`, which shadows the owning definition's extension
surface; an unknown member falls through to that surface. -/
def getProp (w : World γ) (x : Variant α) (n : String) : Option (Member α γ) :=
  if n = "_name" then some (Member.nameProp x._name)
  else if n = "_args" then some (Member.argsProp x._args)
  else if n = "cases" then some Member.casesMethod
  else (w.surfaces x.defId n).map Member.shared

/-- A handler object with a single key. -/
def singletonH (v : String) (f : List α → β) : HMap α β :=
  fun k => if k = v then some (Entry.func f) else none

/-- World evolution: `Evolves w w'` holds when `w'` is reachable from `w` by
any finite sequence of the library's operations — further `define` calls,
constructor invocations (for any payload type), and attachments of shared
behavior.  This is how "separate calls to `define`", possibly far apart in a
program, are related: the second call runs in some world that evolved from
the state right after the first call returned. -/
inductive Evolves (γ : Type) : World γ → World γ → Prop where
  | refl (w : World γ) : Evolves γ w w
  | defineStep {w w' : World γ} (vs : List String) :
      Evolves γ w w' → Evolves γ w (defineOp w' vs).1
  | constructStep {w w' : World γ} {α : Type} (d : DefnRef) (name : String)
      (args : List α) : Evolves γ w w' → Evolves γ w (construct w' d name args).1
  | attachStep {w w' : World γ} (d : DefnRef) (n : String) (b : γ) :
      Evolves γ w w' → Evolves γ w (attachOp w' d n b)

/-- Keys not occurring in the list are left untouched by the `forEach` loop. -/
theorem bindFrom_not_mem (i : Nat) (l : List String) (m : String → Option Nat)
    (v : String) (h : v ∉ l) : bindFrom i l m v = m v := by
  induction l generalizing i m with
  | nil => rfl
  | cons a t ih =>
    simp only [List.mem_cons, not_or] at h
    simp only [bindFrom]
    rw [ih _ _ h.2]
    simp [h.1]

/-- The `forEach` loop binds each name to its last occurrence: if `v` does not
occur after position `l1.length`, that is the index recorded for `v`. -/
theorem bindFrom_last (i : Nat) (l1 l2 : List String) (m : String → Option Nat)
    (v : String) (h : v ∉ l2) :
    bindFrom i (l1 ++ v :: l2) m v = some (i + l1.length) := by
  induction l1 generalizing i m with
  | nil =>
    simp only [List.nil_append, bindFrom]
    rw [bindFrom_not_mem _ _ _ _ h]
    simp
  | cons a t ih =>
    simp only [List.cons_append, bindFrom, List.append_eq]
    rw [ih]
    congr 1
    simp only [List.length_cons]
    omega

/-- Every name occurring in the list ends up bound. -/
theorem bindFrom_mem (i : Nat) (l : List String) (m : String → Option Nat)
    (v : String) (h : v ∈ l) : ∃ j, bindFrom i l m v = some j := by
  induction l generalizing i m with
  | nil => cases h
  | cons a t ih =>
    by_cases ht : v ∈ t
    · simpa only [bindFrom] using ih (i + 1) _ ht
    · have hva : v = a := by
        rcases List.mem_cons.mp h with h1 | h2
        · exact h1
        · exact absurd h2 ht
      subst hva
      simp only [bindFrom]
      rw [bindFrom_not_mem _ _ _ _ ht]
      exact ⟨i, by simp⟩

/-- A name supplied to `define` gets a constructor bound on the result. -/
theorem bindVariants_mem (vs : List String) (v : String) (h : v ∈ vs) :
    ∃ j, bindVariants vs v = some j :=
  bindFrom_mem 0 vs _ v h

/-- Claim C1: if the handler map binds a function handler under the value's
own tag, `cases` invokes exactly that handler — never another handler and
never the fallback — with the payload spread as positional arguments in
order, and returns that handler's result. -/
theorem cases_dispatch_tag_handler (x : Variant α) (opts : HMap α β)
    (f : List α → β) (h : opts x._name = some (Entry.func f)) :
    x.cases opts = Except.ok (f x._args)
    ∧ ∀ opts' : HMap α β, opts' x._name = opts x._name →
        x.cases opts' = x.cases opts := by
  refine ⟨by simp [Variant.cases, h], fun opts' h' => ?_⟩
  rw [h] at h'
  simp [Variant.cases, h, h']

/-- Witness for C1: a `Just 3` value with both a `Just` handler and a
fallback present dispatches to the `Just` handler on the payload `[3]`. -/
theorem cases_dispatch_tag_handler_witness :
    (⟨0, 0, "Just", [3]⟩ : Variant Nat).cases
      (fun k => if k = "Just" then some (Entry.func (fun a => a.headD 0 + 1))
        else if k = "_" then some (Entry.func (fun _ => 99)) else none)
      = Except.ok 4 :=
  (cases_dispatch_tag_handler _ _ _ rfl).1

/-- Claim C4: when the value's tag has no (truthy) handler in the map but a
fallback `_` function is present, `cases` invokes the fallback with zero
arguments — whatever the payload length — and returns its result. -/
theorem cases_fallback_zero_args (x : Variant α) (opts : HMap α β)
    (g : List α → β) (h1 : entryTruthy (opts x._name) = false)
    (h2 : opts "_" = some (Entry.func g)) :
    x.cases opts = Except.ok (g []) := by
  unfold Variant.cases
  match hx : opts x._name with
  | some (Entry.func f) => rw [hx] at h1; simp [entryTruthy] at h1
  | some Entry.falsy => rw [h2]
  | none => rw [h2]

/-- Witness for C4: a value with a 3-element payload and no handler for its
tag dispatches to the fallback, which receives the empty argument list. -/
theorem cases_fallback_zero_args_witness :
    (⟨0, 0, "Inner", [1, 2, 3]⟩ : Variant Nat).cases
      (fun k => if k = "Leaf" then some (Entry.func (fun a => a.headD 0))
        else if k = "_" then some (Entry.func List.length) else none)
      = Except.ok 0 :=
  cases_fallback_zero_args _ _ _ (by decide) rfl

/-- Claim C2: tag-fidelity round trip.  For every variant name `v` supplied
to `define` and every argument sequence `args`, calling the `v` constructor
and dispatching the result with the identity-collector handler under key `v`
returns exactly `args` (same length, values, and order). -/
theorem define_ctor_cases_roundtrip (w : World γ) (vs : List String)
    (v : String) (args : List α) (hv : v ∈ vs) :
    ∃ p : World γ × Variant α,
      callCtor (defineOp w vs).1 (defineOp w vs).2 v args = some p
      ∧ (p.2).cases (singletonH v (fun a => a)) = Except.ok args := by
  obtain ⟨j, hj⟩ := bindVariants_mem vs v hv
  refine ⟨construct (defineOp w vs).1 (defineOp w vs).2 v args, ?_, ?_⟩
  · simp [callCtor, defineOp, hj]
  · simp [construct, Variant.cases, singletonH]

/-- Witness for C2: `define("Nothing","Just").Just(5).cases({Just: (...a) => a})`
evaluates to `[5]`. -/
theorem define_ctor_cases_roundtrip_witness :
    ∃ p : World Unit × Variant Nat,
      callCtor (defineOp (⟨0, 0, fun _ _ => none⟩ : World Unit) ["Nothing", "Just"]).1
          (defineOp (⟨0, 0, fun _ _ => none⟩ : World Unit) ["Nothing", "Just"]).2 "Just" [5]
          = some p
      ∧ (p.2).cases (singletonH "Just" (fun a => a)) = Except.ok [5] :=
  define_ctor_cases_roundtrip _ _ _ _ (by decide)

/-- Claim C3: with a handler map whose present entries are all functions (the
spec's input contract), `cases` throws exactly when the map contains neither
an entry for the value's tag nor a fallback `_` entry, the thrown error is
the missing-case error naming that tag, and no other error ever escapes. -/
theorem cases_nonexhaustive_error (x : Variant α) (opts : HMap α β)
    (wf : ∀ k e, opts k = some e → ∃ f, e = Entry.func f) :
    (x.cases opts = Except.error (missingCaseMsg x._name) ↔
      opts x._name = none ∧ opts "_" = none)
    ∧ ∀ e, x.cases opts = Except.error e → e = missingCaseMsg x._name := by
  rcases h1 : opts x._name with _ | e1
  case some =>
    obtain ⟨f, rfl⟩ := wf _ _ h1
    have hc : x.cases opts = Except.ok (f x._args) := by simp [Variant.cases, h1]
    refine ⟨⟨fun h => ?_, fun h => ?_⟩, fun e he => ?_⟩
    · rw [hc] at h; cases h
    · exact absurd h.1 (by simp)
    · rw [hc] at he; cases he
  case none =>
    rcases h2 : opts "_" with _ | e2
    case some =>
      obtain ⟨g, rfl⟩ := wf _ _ h2
      have hc : x.cases opts = Except.ok (g []) := by simp [Variant.cases, h1, h2]
      refine ⟨⟨fun h => ?_, fun h => ?_⟩, fun e he => ?_⟩
      · rw [hc] at h; cases h
      · exact absurd h.2 (by simp)
      · rw [hc] at he; cases he
    case none =>
      have hc : x.cases opts = Except.error (missingCaseMsg x._name) := by
        simp [Variant.cases, h1, h2]
      refine ⟨⟨fun _ => ⟨rfl, rfl⟩, fun _ => hc⟩, fun e he => ?_⟩
      rw [hc] at he
      injection he with h
      exact h.symm

/-- Witness for C3: the empty handler map makes a `Just` value throw the
missing-case error naming `Just`. -/
theorem cases_nonexhaustive_error_witness :
    (⟨0, 0, "Just", [5]⟩ : Variant Nat).cases (fun _ => (none : Option (Entry Nat Nat)))
      = Except.error (missingCaseMsg "Just") :=
  (cases_nonexhaustive_error _ _ (fun _ _ h => by cases h)).1.mpr ⟨rfl, rfl⟩

/-- Claim C9 (implicit): dispatch tests the entry for truthiness, not
presence.  A falsy value bound under the value's own tag behaves exactly as
if the key were absent: `cases` on the original map equals `cases` on the
map with that key removed; in particular a function fallback is invoked with
zero arguments, and without a truthy fallback the missing-case error for the
tag is thrown. -/
theorem cases_falsy_entry (x : Variant α) (opts : HMap α β)
    (h : opts x._name = some Entry.falsy) :
    x.cases opts = x.cases (fun k => if k = x._name then none else opts k)
    ∧ (∀ g, opts "_" = some (Entry.func g) → x.cases opts = Except.ok (g []))
    ∧ (entryTruthy (opts "_") = false →
        x.cases opts = Except.error (missingCaseMsg x._name)) := by
  refine ⟨?_, fun g hg => by simp [Variant.cases, h, hg], fun ht => ?_⟩
  · by_cases hu : x._name = "_"
    · have h2 : opts "_" = some Entry.falsy := by rw [← hu]; exact h
      simp [Variant.cases, hu, h2]
    · have h' : ("_" : String) ≠ x._name := fun hc => hu hc.symm
      simp [Variant.cases, h, h']
  · rcases h2 : opts "_" with _ | e2
    case none => simp [Variant.cases, h, h2]
    case some =>
      cases e2 with
      | func g => rw [h2] at ht; simp [entryTruthy] at ht
      | falsy => simp [Variant.cases, h, h2]

/-- Witness for C9: a `Leaf` value whose map binds `Leaf` to a falsy value
and `_` to a handler dispatches to the fallback with zero arguments. -/
theorem cases_falsy_entry_witness :
    (⟨0, 0, "Leaf", [1, 2]⟩ : Variant Nat).cases
      (fun k => if k = "Leaf" then some Entry.falsy
        else if k = "_" then some (Entry.func List.length) else none)
      = Except.ok 0 :=
  (cases_falsy_entry _ _ rfl).2.1 _ rfl

/-- Claim C10 (implicit): the fallback marker is not reserved.  A variant
literally named `_` gets an ordinary constructor, and a handler map binding
a function under key `_` matches such a value as its own tag: the handler
receives the full payload spread as arguments (not zero arguments), and the
missing-case error is unreachable. -/
theorem underscore_variant_dispatch (w : World γ) (vs : List String)
    (args : List α) (opts : HMap α β) (f : List α → β)
    (hv : "_" ∈ vs) (hf : opts "_" = some (Entry.func f)) :
    ∃ p : World γ × Variant α,
      callCtor (defineOp w vs).1 (defineOp w vs).2 "_" args = some p
      ∧ (p.2)._name = "_" ∧ (p.2)._args = args
      ∧ (p.2).cases opts = Except.ok (f args) := by
  obtain ⟨j, hj⟩ := bindVariants_mem vs _ hv
  refine ⟨construct (defineOp w vs).1 (defineOp w vs).2 "_" args, ?_, rfl, rfl, ?_⟩
  · simp [callCtor, defineOp, hj]
  · simp [construct, Variant.cases, hf]

/-- Witness for C10: a variant named `_` with payload `[7]` dispatches to the
`_`-keyed handler with the payload, returning `[7]`, not `[]`. -/
theorem underscore_variant_dispatch_witness :
    ∃ p : World Unit × Variant Nat,
      callCtor (defineOp (⟨0, 0, fun _ _ => none⟩ : World Unit) ["_", "Leaf"]).1
          (defineOp (⟨0, 0, fun _ _ => none⟩ : World Unit) ["_", "Leaf"]).2 "_" [7]
          = some p
      ∧ (p.2)._name = "_" ∧ (p.2)._args = [7]
      ∧ (p.2).cases (singletonH "_" (fun a => a)) = Except.ok [7] :=
  underscore_variant_dispatch (⟨0, 0, fun _ _ => none⟩ : World Unit) ["_", "Leaf"] [7]
    (singletonH "_" (fun a => a)) (fun a => a) (by decide) rfl

/-- No library operation ever decreases the definition-id counter, so a
definition allocated earlier can never collide with one allocated later. -/
theorem evolves_nextDef_le {w w' : World γ} (h : Evolves γ w w') :
    w.nextDef ≤ w'.nextDef := by
  induction h with
  | refl => exact Nat.le_refl _
  | defineStep vs _ ih => exact Nat.le_trans ih (Nat.le_succ _)
  | constructStep d name args _ ih => exact ih
  | attachStep d n b _ ih => exact ih

/-- Attaching shared behavior to a definition mutates no other definition's
extension surface. -/
theorem attach_surfaces_frame (w : World γ) (d : DefnRef) (n : String) (b : γ)
    (j : Nat) (hj : j ≠ d.id) :
    (attachOp w d n b).surfaces j = w.surfaces j := by
  simp [attachOp, hj]

/-- Attaching shared behavior to a definition changes no property lookup on
values owned by a different definition. -/
theorem attach_getProp_frame (w : World γ) (d : DefnRef) (n : String) (b : γ)
    (x : Variant α) (m : String) (hx : x.defId ≠ d.id) :
    getProp (attachOp w d n b) x m = getProp w x m := by
  unfold getProp
  rw [attach_surfaces_frame w d n b x.defId hx]

/-- Claim C5: extension isolation.  Any two definitions produced by separate
calls to `define` — the second call running in any world that evolved from
the first call's result by any operation sequence, with possibly overlapping
variant name lists — have distinct identities, and attaching shared behavior
to either one (at any later time, in any world `w'`) changes no property
lookup on any value owned by the other and leaves the other's extension
surface untouched. -/
theorem attach_isolated (w1 w2 : World γ) (vs1 vs2 : List String)
    (x y : Variant α) (w' : World γ) (n m : String) (b : γ)
    (hev : Evolves γ (defineOp w1 vs1).1 w2)
    (hx : x.defId = ((defineOp w2 vs2).2).id)
    (hy : y.defId = ((defineOp w1 vs1).2).id) :
    ((defineOp w1 vs1).2).id ≠ ((defineOp w2 vs2).2).id
    ∧ getProp (attachOp w' ((defineOp w1 vs1).2) n b) x m = getProp w' x m
    ∧ getProp (attachOp w' ((defineOp w2 vs2).2) n b) y m = getProp w' y m
    ∧ (attachOp w' ((defineOp w1 vs1).2) n b).surfaces (((defineOp w2 vs2).2).id)
        = w'.surfaces (((defineOp w2 vs2).2).id)
    ∧ (attachOp w' ((defineOp w2 vs2).2) n b).surfaces (((defineOp w1 vs1).2).id)
        = w'.surfaces (((defineOp w1 vs1).2).id) := by
  have hle : w1.nextDef + 1 ≤ w2.nextDef := evolves_nextDef_le hev
  have hne : ((defineOp w1 vs1).2).id ≠ ((defineOp w2 vs2).2).id := by
    show w1.nextDef ≠ w2.nextDef
    omega
  refine ⟨hne, ?_, ?_, ?_, ?_⟩
  · exact attach_getProp_frame w' _ n b x m (by rw [hx]; exact hne.symm)
  · exact attach_getProp_frame w' _ n b y m (by rw [hy]; exact hne)
  · exact attach_surfaces_frame w' _ n b _ hne.symm
  · exact attach_surfaces_frame w' _ n b _ hne

/-- Witness for C5: define a sum type `A`, then (after an unrelated `define`
and a construction) define a second sum type with the same variant name
list.  Attaching `toString` to the second definition leaves lookup of
`toString` on a pre-existing value of the first unchanged, and the two
definitions are distinct. -/
theorem attach_isolated_witness :
    ((defineOp (⟨0, 0, fun _ _ => none⟩ : World Unit) ["A"]).2).id
      ≠ ((defineOp (construct
            (defineOp (defineOp (⟨0, 0, fun _ _ => none⟩ : World Unit) ["A"]).1
              ["B"]).1
            ⟨0, bindVariants ["A"]⟩ "A" ([] : List Nat)).1 ["A"]).2).id
    ∧ getProp
        (attachOp (⟨3, 1, fun _ _ => none⟩ : World Unit)
          ((defineOp (construct
              (defineOp (defineOp (⟨0, 0, fun _ _ => none⟩ : World Unit) ["A"]).1
                ["B"]).1
              ⟨0, bindVariants ["A"]⟩ "A" ([] : List Nat)).1 ["A"]).2) "toString" ())
        (⟨0, 0, "A", []⟩ : Variant Nat) "toString"
      = getProp (⟨3, 1, fun _ _ => none⟩ : World Unit)
        (⟨0, 0, "A", []⟩ : Variant Nat) "toString" :=
  ⟨(attach_isolated (⟨0, 0, fun _ _ => none⟩ : World Unit) _ ["A"] ["A"]
      (⟨1, 2, "A", []⟩ : Variant Nat) (⟨0, 0, "A", []⟩ : Variant Nat)
      (⟨3, 1, fun _ _ => none⟩ : World Unit) "toString" "toString" ()
      (Evolves.constructStep ⟨0, bindVariants ["A"]⟩ "A" ([] : List Nat)
        (Evolves.defineStep ["B"] (Evolves.refl _))) rfl rfl).1,
   (attach_isolated (⟨0, 0, fun _ _ => none⟩ : World Unit) _ ["A"] ["A"]
      (⟨1, 2, "A", []⟩ : Variant Nat) (⟨0, 0, "A", []⟩ : Variant Nat)
      (⟨3, 1, fun _ _ => none⟩ : World Unit) "toString" "toString" ()
      (Evolves.constructStep ⟨0, bindVariants ["A"]⟩ "A" ([] : List Nat)
        (Evolves.defineStep ["B"] (Evolves.refl _))) rfl rfl).2.2.1⟩

/-- Counterexample to C6 as stated: attaching behavior under the name
`cases` to a definition's extension surface does not make it accessible on a
value under that name — the built-in `cases` method of `Variant.prototype`
sits earlier in the prototype chain and shadows it.  Lookup yields the
dispatch method, not the attached behavior. -/
theorem attach_cases_shadowed :
    getProp (attachOp (defineOp (⟨0, 0, fun _ _ => none⟩ : World Unit) ["Leaf"]).1
        (defineOp (⟨0, 0, fun _ _ => none⟩ : World Unit) ["Leaf"]).2 "cases" ())
      ((construct (defineOp (⟨0, 0, fun _ _ => none⟩ : World Unit) ["Leaf"]).1
        (defineOp (⟨0, 0, fun _ _ => none⟩ : World Unit) ["Leaf"]).2 "Leaf"
        ([] : List Nat)).2) "cases"
      = some Member.casesMethod
    ∧ getProp (attachOp (defineOp (⟨0, 0, fun _ _ => none⟩ : World Unit) ["Leaf"]).1
        (defineOp (⟨0, 0, fun _ _ => none⟩ : World Unit) ["Leaf"]).2 "cases" ())
      ((construct (defineOp (⟨0, 0, fun _ _ => none⟩ : World Unit) ["Leaf"]).1
        (defineOp (⟨0, 0, fun _ _ => none⟩ : World Unit) ["Leaf"]).2 "Leaf"
        ([] : List Nat)).2) "cases"
      ≠ some (Member.shared ()) :=
  ⟨rfl, by decide⟩

/-- Claim C6, amended: retroactive visibility holds for every attached name
that is not shadowed by a built-in member of the value (`_name`, `_args`,
`cases`).  A value constructed from any earlier world sees behavior attached
afterwards, because lookup goes through the owning definition's surface by
reference rather than copying at construction time. -/
theorem attach_retroactive_amended (w w1 : World γ) (d : DefnRef) (v n : String)
    (args : List α) (b : γ)
    (h1 : n ≠ "_name") (h2 : n ≠ "_args") (h3 : n ≠ "cases") :
    getProp (attachOp w d n b) ((construct w1 d v args).2) n
      = some (Member.shared b) := by
  simp [getProp, attachOp, construct, h1, h2, h3]

/-- Witness for the amended C6: a `mapLeaf` behavior attached after a value
was constructed is visible on that value. -/
theorem attach_retroactive_amended_witness :
    getProp (attachOp (⟨1, 1, fun _ _ => none⟩ : World Nat)
        ⟨0, bindVariants ["Leaf"]⟩ "mapLeaf" 7)
      ((construct (⟨1, 0, fun _ _ => none⟩ : World Nat)
        ⟨0, bindVariants ["Leaf"]⟩ "Leaf" ([3] : List Nat)).2) "mapLeaf"
      = some (Member.shared 7) :=
  attach_retroactive_amended _ _ _ _ _ _ _ (by decide) (by decide) (by decide)

/-- Claim C7: a bound variant constructor always succeeds on any argument
sequence, returning a fresh value tagged with the variant name, with payload
exactly the arguments in order, owned by the definition; constructing twice
with identical tag and arguments yields values with distinct identities that
behave identically under `cases` and under property lookup. -/
theorem ctor_always_succeeds_fresh (w : World γ) (d : DefnRef) (v : String)
    (args : List α) (i : Nat) (hv : d.ctors v = some i) :
    callCtor w d v args = some (construct w d v args)
    ∧ ((construct w d v args).2)._name = v
    ∧ ((construct w d v args).2)._args = args
    ∧ ((construct w d v args).2).defId = d.id
    ∧ ((construct (construct w d v args).1 d v args).2).objId
        ≠ ((construct w d v args).2).objId
    ∧ (∀ (β : Type) (opts : HMap α β),
        ((construct (construct w d v args).1 d v args).2).cases opts
          = ((construct w d v args).2).cases opts)
    ∧ ∀ (w' : World γ) (n : String),
        getProp w' ((construct (construct w d v args).1 d v args).2) n
          = getProp w' ((construct w d v args).2) n := by
  refine ⟨?_, rfl, rfl, rfl, ?_, fun β opts => rfl, fun w' n => rfl⟩
  · simp [callCtor, hv]
  · simp [construct]

/-- Witness for C7: two `Leaf(3)` constructions from consecutive worlds get
distinct object identities. -/
theorem ctor_always_succeeds_fresh_witness :
    ((construct (construct (⟨1, 0, fun _ _ => none⟩ : World Unit)
        ⟨0, bindVariants ["Leaf"]⟩ "Leaf" ([3] : List Nat)).1
      ⟨0, bindVariants ["Leaf"]⟩ "Leaf" ([3] : List Nat)).2).objId
      ≠ ((construct (⟨1, 0, fun _ _ => none⟩ : World Unit)
        ⟨0, bindVariants ["Leaf"]⟩ "Leaf" ([3] : List Nat)).2).objId :=
  (ctor_always_succeeds_fresh _ _ _ _ 0 rfl).2.2.2.2.1

/-- Claim C8: `define` never fails on duplicate variant names; the
constructor bound under a duplicated name is the one arising from its last
occurrence, the later `forEach` assignment silently overwriting the
earlier binding. -/
theorem define_duplicate_last_wins (w : World γ) (l1 l2 : List String)
    (v : String) (h : v ∉ l2) :
    ((defineOp w (l1 ++ v :: l2)).2).ctors v = some l1.length := by
  show bindVariants (l1 ++ v :: l2) v = some l1.length
  unfold bindVariants
  simpa using bindFrom_last 0 l1 l2 _ v h

/-- Witness for C8: in `define("Foo","Bar","Foo")` the binding for `Foo`
records the occurrence at index 2, not the one at index 0. -/
theorem define_duplicate_last_wins_witness :
    ((defineOp (⟨0, 0, fun _ _ => none⟩ : World Unit) ["Foo", "Bar", "Foo"]).2).ctors "Foo"
      = some 2 :=
  define_duplicate_last_wins _ ["Foo", "Bar"] [] "Foo" (by decide)

end BriefCases
